import Mathlib

/-!
Shallow embedding of the rust-neander virtual machine
(src/src/state/operator.rs, plus the state constructor and fetch-execute
loop described by the spec).

Machine bytes (u8) are modelled as Nat values < 256, with wrapping
arithmetic written out as explicit reductions modulo 256.  Fallible memory
indexing (Rust panics on an out-of-bounds index) is modelled with
Option-returning accesses via List.get?.
-/

namespace Neander

/-- The sixteen instruction kinds, in the order of the Rust enum OpCode. -/
inductive OpCode where
  | NOP
  | STA
  | LDA
  | ADD
  | OR
  | AND
  | NOT
  | SUB
  | JMP
  | JN
  | JZ
  | JNZ
  | IN
  | OUT
  | LDI
  | HLT
deriving DecidableEq

/-- The machine state.  The State struct itself (src/state/mod.rs) is not
among the provided sources; its fields and their names (pc, ac, memory,
inputs, output, halt) are read off their uses in src/state/operator.rs,
and the fixed sizes come from the spec: memory has 256 cells, output has
40 slots (the 40 is also visible in the OUT transition), inputs is indexed
by an argument byte.  Every 8-bit cell is a Nat value < 256. -/
structure State where
  pc : Nat
  ac : Nat
  memory : List Nat
  inputs : List Nat
  output : List Nat
  halt : Bool
deriving DecidableEq

/-- An instruction descriptor, as in the Rust struct Operator.  The
transition function returns Option State: a Rust out-of-bounds index
panics, which the embedding renders as none. -/
structure Operator where
  mnemonic : OpCode
  requires_arg : Bool
  run : State → Nat → Option State

/-- NOP: advance pc by 1. -/
def NOP : Operator :=
  { mnemonic := .NOP
    requires_arg := false
    run := fun s _ => some { s with pc := s.pc + 1 } }

/-- STA: memory[argument] := ac, pc + 2. -/
def STA : Operator :=
  { mnemonic := .STA
    requires_arg := true
    run := fun s arg =>
      if arg < s.memory.length then
        some { s with pc := s.pc + 2, memory := s.memory.set arg s.ac }
      else none }

/-- LDA: ac := memory[argument], pc + 2. -/
def LDA : Operator :=
  { mnemonic := .LDA
    requires_arg := true
    run := fun s arg =>
      (s.memory.get? arg).map fun v => { s with pc := s.pc + 2, ac := v } }

/-- ADD: ac := ac + memory[argument]; u8 addition wraps modulo 256. -/
def ADD : Operator :=
  { mnemonic := .ADD
    requires_arg := true
    run := fun s arg =>
      (s.memory.get? arg).map fun v =>
        { s with pc := s.pc + 2, ac := (s.ac + v) % 256 } }

/-- OR: ac := memory[argument] ||| ac, pc + 2. -/
def OR : Operator :=
  { mnemonic := .OR
    requires_arg := true
    run := fun s arg =>
      (s.memory.get? arg).map fun v =>
        { s with pc := s.pc + 2, ac := v ||| s.ac } }

/-- AND: ac := memory[argument] &&& ac, pc + 2. -/
def AND : Operator :=
  { mnemonic := .AND
    requires_arg := true
    run := fun s arg =>
      (s.memory.get? arg).map fun v =>
        { s with pc := s.pc + 2, ac := v &&& s.ac } }

/-- NOT: ac := bitwise complement of ac; for a u8 value x the Rust
complement !x equals 255 - x.  pc + 1. -/
def NOT : Operator :=
  { mnemonic := .NOT
    requires_arg := false
    run := fun s _ => some { s with pc := s.pc + 1, ac := 255 - s.ac } }

/-- SUB: ac := ac - memory[argument]; u8 subtraction wraps modulo 256,
rendered on Nat as (ac + 256 - v) % 256 (both operands are < 256). -/
def SUB : Operator :=
  { mnemonic := .SUB
    requires_arg := true
    run := fun s arg =>
      (s.memory.get? arg).map fun v =>
        { s with pc := s.pc + 2, ac := (s.ac + 256 - v) % 256 } }

/-- JMP: pc := argument. -/
def JMP : Operator :=
  { mnemonic := .JMP
    requires_arg := true
    run := fun s arg => some { s with pc := arg } }

/-- JN: pc := argument when ac >= 0b1000000, else pc + 2.  (The literal
threshold in the source is the binary literal 0b1000000 = 64.) -/
def JN : Operator :=
  { mnemonic := .JN
    requires_arg := true
    run := fun s arg =>
      some { s with pc := if 0b1000000 ≤ s.ac then arg else s.pc + 2 } }

/-- JZ: pc := argument when ac = 0, else pc + 2. -/
def JZ : Operator :=
  { mnemonic := .JZ
    requires_arg := true
    run := fun s arg =>
      some { s with pc := if s.ac = 0 then arg else s.pc + 2 } }

/-- JNZ: pc := argument when ac ≠ 0, else pc + 2. -/
def JNZ : Operator :=
  { mnemonic := .JNZ
    requires_arg := true
    run := fun s arg =>
      some { s with pc := if s.ac ≠ 0 then arg else s.pc + 2 } }

/-- IN: ac := inputs[argument], pc + 2. -/
def IN : Operator :=
  { mnemonic := .IN
    requires_arg := true
    run := fun s arg =>
      (s.inputs.get? arg).map fun v => { s with pc := s.pc + 2, ac := v } }

/-- OUT: build a fresh 40-slot output with slot 0 = ac and slots 1..39
copied from the old slots 0..38 (the Rust slice state.output[..39]);
when output has its fixed length 40 this is exactly ac :: output.take 39.
pc + 1. -/
def OUT : Operator :=
  { mnemonic := .OUT
    requires_arg := false
    run := fun s _ =>
      some { s with pc := s.pc + 1, output := s.ac :: s.output.take 39 } }

/-- LDI: ac := argument (immediate literal), pc + 2. -/
def LDI : Operator :=
  { mnemonic := .LDI
    requires_arg := true
    run := fun s arg => some { s with pc := s.pc + 2, ac := arg } }

/-- HLT: halt := true, pc + 1. -/
def HLT : Operator :=
  { mnemonic := .HLT
    requires_arg := false
    run := fun s _ => some { s with pc := s.pc + 1, halt := true } }

/-- The decode table: the sixteen inclusive opcode ranges of the Rust
match in get_operator, in source order. -/
def opTable : List (Nat × Nat × Operator) :=
  [ (0x00, 0x0F, NOP)
  , (0x10, 0x1F, STA)
  , (0x20, 0x2F, LDA)
  , (0x30, 0x3F, ADD)
  , (0x40, 0x4F, OR)
  , (0x50, 0x5F, AND)
  , (0x60, 0x6F, NOT)
  , (0x70, 0x7F, SUB)
  , (0x80, 0x8F, JMP)
  , (0x90, 0x9F, JN)
  , (0xA0, 0xAF, JZ)
  , (0xB0, 0xBF, JNZ)
  , (0xC0, 0xCF, IN)
  , (0xD0, 0xDF, OUT)
  , (0xE0, 0xEF, LDI)
  , (0xF0, 0xFF, HLT) ]

/-- Decode an opcode byte by trying the sixteen range arms in order, as
the Rust match does; the final panic arm is rendered as none (reached
only when no range matches). -/
def get_operator (code : Nat) : Option Operator :=
  opTable.findSome? fun e =>
    if e.1 ≤ code ∧ code ≤ e.2.1 then some e.2.2 else none

/-- Modelled from the spec: State::new (src/state/mod.rs is not among the
provided sources).  Construction places the program bytes at the low end
of the 256-cell memory, zero-fills the remaining cells, zeroes all
registers and I/O buffers (40 output slots, byte-indexed input ports) and
starts with halted = false. -/
def State.new (program : List Nat) : State :=
  { pc := 0
    ac := 0
    memory := program.take 256 ++ List.replicate (256 - program.length) 0
    inputs := List.replicate 256 0
    output := List.replicate 40 0
    halt := false }

/-- Modelled from the spec: one iteration of the fetch-execute loop
(State::start in src/state/mod.rs is not among the provided sources).
Decode the opcode at memory[pc]; when the instruction requires an
argument, read memory[pc + 1] as the argument byte; apply the decoded
transition.  Any out-of-bounds fetch is a fatal failure (none). -/
def step (s : State) : Option State :=
  (s.memory.get? s.pc).bind fun code =>
    (get_operator code).bind fun op =>
      if op.requires_arg then
        (s.memory.get? (s.pc + 1)).bind fun arg => op.run s arg
      else
        op.run s 0

/-- Modelled from the spec: the fetch-execute loop (State::start), with an
explicit fuel bound so the recursion is total.  The loop stops and returns
the state as soon as halted is observed true; running out of fuel before
halting yields none, so a some result is a run to completion. -/
def start (fuel : Nat) (s : State) : Option State :=
  match fuel with
  | 0 => if s.halt then some s else none
  | n + 1 => if s.halt then some s else (step s).bind (start n)

/-! Concrete machine states used to instantiate the theorems. -/

/-- A state with accumulator 250 and memory cell 0 holding 10. -/
def st250 : State :=
  { pc := 0, ac := 250, memory := [10], inputs := [], output := [], halt := false }

/-- A state with accumulator 5 and memory cell 0 holding 10. -/
def st5 : State :=
  { pc := 0, ac := 5, memory := [10], inputs := [], output := [], halt := false }

/-- A state with accumulator 100. -/
def st100 : State :=
  { pc := 0, ac := 100, memory := [10], inputs := [], output := [], halt := false }

/-- A state with accumulator 200. -/
def st200 : State :=
  { pc := 0, ac := 200, memory := [], inputs := [], output := [], halt := false }

/-- C1: ADD sets the accumulator to the sum of the old accumulator and
memory[argument] reduced modulo 256, and SUB sets it to the difference
reduced modulo 256 (integer difference, wrapped); both always succeed on a
readable cell and never trap. -/
theorem C1_add_sub_wrap (s : State) (arg v : Nat)
    (hv : s.memory.get? arg = some v) (hac : s.ac < 256) (hv256 : v < 256) :
    (ADD.run s arg).map (fun t => (t.ac : Int)) = some (((s.ac : Int) + v) % 256) ∧
    (SUB.run s arg).map (fun t => (t.ac : Int)) = some (((s.ac : Int) - v) % 256) := by
  simp only [ADD, SUB, hv, Option.map_some', Option.some.injEq]
  constructor <;> omega

/-- C1 witness: accumulator 250 plus memory value 10 wraps to 4, and
accumulator 5 minus memory value 10 wraps to 251. -/
theorem C1_add_sub_wrap_witness :
    (st250.memory.get? 0 = some 10 ∧ st250.ac < 256 ∧ (10 : Nat) < 256) ∧
    (ADD.run st250 0).map (fun t => (t.ac : Int)) = some 4 ∧
    (SUB.run st5 0).map (fun t => (t.ac : Int)) = some 251 := by
  refine ⟨⟨rfl, by decide, by decide⟩, ?_, ?_⟩
  · have h := (C1_add_sub_wrap st250 0 10 rfl (by decide) (by decide)).1
    norm_num [st250] at h ⊢
    exact h
  · have h := (C1_add_sub_wrap st5 0 10 rfl (by decide) (by decide)).2
    norm_num [st5] at h ⊢
    exact h

set_option maxRecDepth 4096 in
/-- C2: decode is total over the byte values 0x00-0xFF (the panic arm is
unreachable), and the sixteen opcode ranges form an exhaustive,
non-overlapping partition: every byte lies in exactly one range. -/
theorem C2_decode_total (code : Nat) (h : code < 256) :
    (get_operator code).isSome = true ∧
    (opTable.countP fun e => decide (e.1 ≤ code ∧ code ≤ e.2.1)) = 1 := by
  revert h
  revert code
  decide

/-- C2 witness: byte 0xAB is decoded, and lies in exactly one range. -/
theorem C2_decode_total_witness :
    0xAB < 256 ∧
    ((get_operator 0xAB).isSome = true ∧
      (opTable.countP fun e => decide (e.1 ≤ 0xAB ∧ 0xAB ≤ e.2.1)) = 1) :=
  ⟨by decide, C2_decode_total 0xAB (by decide)⟩

/-- C5: JN jumps to the argument exactly when the accumulator is at least
64 (decimal), and otherwise falls through to pc + 2; all other fields are
unchanged.  The two implications pin the threshold at exactly 64 rather
than 128: every accumulator value in 64..127 jumps. -/
theorem C5_jn_threshold (s : State) (arg : Nat) :
    ∃ s2, JN.run s arg = some s2 ∧
      (64 ≤ s.ac → s2.pc = arg) ∧
      (s.ac < 64 → s2.pc = s.pc + 2) ∧
      s2.ac = s.ac ∧ s2.halt = s.halt := by
  refine ⟨_, rfl, fun h => ?_, fun h => ?_, rfl, rfl⟩
  · exact if_pos h
  · exact if_neg (by omega)

/-- C5 witness: with accumulator 100 (at least 64 but below 128) JN jumps
to the argument. -/
theorem C5_jn_threshold_witness :
    ∃ s2, JN.run st100 7 = some s2 ∧
      (64 ≤ st100.ac → s2.pc = 7) ∧
      (st100.ac < 64 → s2.pc = st100.pc + 2) ∧
      s2.ac = st100.ac ∧ s2.halt = st100.halt :=
  C5_jn_threshold st100 7

/-- C6: NOT is involutive: applying the NOT transition twice restores the
original accumulator value, for every accumulator value below 256. -/
theorem C6_not_involutive (s : State) (h : s.ac < 256) :
    ∃ s1 s2, NOT.run s 0 = some s1 ∧ NOT.run s1 0 = some s2 ∧ s2.ac = s.ac := by
  refine ⟨_, _, rfl, rfl, ?_⟩
  show 255 - (255 - s.ac) = s.ac
  omega

/-- C6 witness: double NOT at accumulator 100. -/
theorem C6_not_involutive_witness :
    st100.ac < 256 ∧
    ∃ s1 s2, NOT.run st100 0 = some s1 ∧ NOT.run s1 0 = some s2 ∧ s2.ac = st100.ac :=
  ⟨by decide, C6_not_involutive st100 (by decide)⟩

/-- C9: running the fetch-execute loop to completion on the machine built
from program bytes [0xE0, 0x05, 0xD0, 0xF0] (LDI 5; OUT; HLT) ends with
accumulator 5, output slot 0 holding 5, the halt flag set, and program
counter 4. -/
theorem C9_end_to_end :
    (start 10 (State.new [0xE0, 0x05, 0xD0, 0xF0])).map
      (fun f => (f.ac, f.output.get? 0, f.halt, f.pc)) = some (5, some 5, true, 4) := by
  decide

/-- Written from the spec's decode table, for comparison with the source
decoder: the instruction kind selected by the opcode's high nibble
(bits 7-4), in the spec's order NOP, STA, LDA, ADD, OR, AND, NOT, SUB,
JMP, JN, JZ, JNZ, IN, OUT, LDI, HLT for nibble values 0x0-0xF. -/
def specNibbleKind (code : Nat) : OpCode :=
  match code / 16 with
  | 0 => .NOP
  | 1 => .STA
  | 2 => .LDA
  | 3 => .ADD
  | 4 => .OR
  | 5 => .AND
  | 6 => .NOT
  | 7 => .SUB
  | 8 => .JMP
  | 9 => .JN
  | 10 => .JZ
  | 11 => .JNZ
  | 12 => .IN
  | 13 => .OUT
  | 14 => .LDI
  | _ => .HLT

set_option maxRecDepth 4096 in
/-- C3: the decoded instruction kind is determined solely by the opcode's
high nibble, following the spec's nibble table (low nibble ignored), so
any two bytes with the same high nibble decode to the same kind. -/
theorem C3_high_nibble (a b : Nat) (ha : a < 256) (hb : b < 256)
    (hn : a / 16 = b / 16) :
    (get_operator a).map Operator.mnemonic = some (specNibbleKind a) ∧
    (get_operator a).map Operator.mnemonic = (get_operator b).map Operator.mnemonic := by
  have key : ∀ c, c < 256 → (get_operator c).map Operator.mnemonic = some (specNibbleKind c) := by
    decide
  have hs : specNibbleKind a = specNibbleKind b := by
    unfold specNibbleKind
    rw [hn]
  rw [key a ha, key b hb, hs]
  exact ⟨hs ▸ rfl, rfl⟩

/-- C3 witness: bytes 0x2A and 0x25 share high nibble 2 and both decode
to the LDA kind of the spec table. -/
theorem C3_high_nibble_witness :
    (0x2A < 256 ∧ 0x25 < 256 ∧ 0x2A / 16 = 0x25 / 16) ∧
    ((get_operator 0x2A).map Operator.mnemonic = some (specNibbleKind 0x2A) ∧
     (get_operator 0x2A).map Operator.mnemonic = (get_operator 0x25).map Operator.mnemonic) :=
  ⟨⟨by decide, by decide, by decide⟩,
   C3_high_nibble 0x2A 0x25 (by decide) (by decide) (by decide)⟩

/-- Emit one value: set the accumulator to the value and apply the OUT
transition (OUT never fails). -/
def emitOne (s : State) (v : Nat) : State :=
  match OUT.run { s with ac := v } 0 with
  | some s2 => s2
  | none => s

/-- Emit a sequence of values through OUT, left to right. -/
def emitSeq (vs : List Nat) (s : State) : State :=
  vs.foldl emitOne s

/-- C4: OUT puts the current accumulator in output slot 0, shifts the old
slots 0..38 to slots 1..39, and discards the old slot 39 (the output stays
40 slots long and old slot 38 is the new last slot); consequently emitting
the 41 values 0..40 in sequence leaves exactly the last 40 of them, in
reverse emission order. -/
theorem C4_out_history (s : State) (h : s.output.length = 40) :
    (∃ s2, OUT.run s 0 = some s2 ∧
      s2.output.length = 40 ∧
      s2.output.get? 0 = some s.ac ∧
      (∀ i, i ≤ 38 → s2.output.get? (i + 1) = s.output.get? i) ∧
      s2.output.get? 39 = s.output.get? 38) ∧
    (emitSeq (List.range 41) (State.new [])).output = (List.range 41).reverse.take 40 := by
  constructor
  · refine ⟨_, rfl, ?_, rfl, ?_, ?_⟩
    · show (s.ac :: s.output.take 39).length = 40
      simp [List.length_take, h]
    · intro i hi
      show (s.output.take 39).get? i = s.output.get? i
      exact List.get?_take (by omega)
    · show (s.output.take 39).get? 38 = s.output.get? 38
      exact List.get?_take (by omega)
  · decide

/-- C4 witness: OUT on a state whose output holds the 40 values 1..40. -/
theorem C4_out_history_witness :
    ((State.new []).output.length = 40) ∧
    ((∃ s2, OUT.run (State.new []) 0 = some s2 ∧
      s2.output.length = 40 ∧
      s2.output.get? 0 = some (State.new []).ac ∧
      (∀ i, i ≤ 38 → s2.output.get? (i + 1) = (State.new []).output.get? i) ∧
      s2.output.get? 39 = (State.new []).output.get? 38) ∧
    (emitSeq (List.range 41) (State.new [])).output = (List.range 41).reverse.take 40) :=
  ⟨by decide, C4_out_history (State.new []) (by decide)⟩

/-- C10: on a state with the fixed 256-cell memory, every argument byte
(a value below 256) is a valid index, so the memory accesses of STA, LDA,
ADD, OR, AND and SUB always succeed: none of them can go out of bounds. -/
theorem C10_mem_in_bounds (s : State) (arg : Nat)
    (hmem : s.memory.length = 256) (harg : arg < 256) :
    (STA.run s arg).isSome ∧ (LDA.run s arg).isSome ∧ (ADD.run s arg).isSome ∧
    (OR.run s arg).isSome ∧ (AND.run s arg).isSome ∧ (SUB.run s arg).isSome := by
  have hlt : arg < s.memory.length := by omega
  have hget : (s.memory.get? arg).isSome := by
    rw [List.get?_eq_getElem?, List.getElem?_eq_getElem hlt]
    rfl
  refine ⟨?_, ?_, ?_, ?_, ?_, ?_⟩ <;>
    simp [STA, LDA, ADD, OR, AND, SUB, hlt, hget]

set_option maxRecDepth 4096 in
/-- C10 witness: the freshly constructed machine with the largest argument
byte 255. -/
theorem C10_mem_in_bounds_witness :
    ((State.new []).memory.length = 256 ∧ 255 < 256) ∧
    ((STA.run (State.new []) 255).isSome ∧ (LDA.run (State.new []) 255).isSome ∧
     (ADD.run (State.new []) 255).isSome ∧ (OR.run (State.new []) 255).isSome ∧
     (AND.run (State.new []) 255).isSome ∧ (SUB.run (State.new []) 255).isSome) :=
  ⟨⟨by decide, by decide⟩,
   C10_mem_in_bounds (State.new []) 255 (by decide) (by decide)⟩

/-- C7 counterexample: with accumulator 200 both JNZ (accumulator nonzero)
and JN (accumulator at least 64) take their jump to the argument 7, which
differs from the fall-through pc + 2 = 2, so JZ, JNZ and JN are not
pairwise mutually exclusive branch decisions. -/
theorem C7_counterexample :
    ((JNZ.run st200 7).map State.pc = some 7 ∧
     (JN.run st200 7).map State.pc = some 7) ∧
    st200.pc + 2 ≠ 7 := by
  decide

/-- C7 amended: JZ is mutually exclusive with JNZ and with JN (it never
takes its jump together with either), but JNZ and JN both take their jump
whenever the accumulator is at least 64; for accumulator 0, JZ branches
and JNZ does not, and for accumulator 200, JN branches and JZ does not. -/
theorem C7_branch_exclusion (s : State) (arg : Nat) (h : arg ≠ s.pc + 2) :
    (¬((JZ.run s arg).map State.pc = some arg ∧
       (JNZ.run s arg).map State.pc = some arg)) ∧
    (¬((JZ.run s arg).map State.pc = some arg ∧
       (JN.run s arg).map State.pc = some arg)) ∧
    (64 ≤ s.ac →
      (JNZ.run s arg).map State.pc = some arg ∧
      (JN.run s arg).map State.pc = some arg) ∧
    (s.ac = 0 →
      (JZ.run s arg).map State.pc = some arg ∧
      ¬(JNZ.run s arg).map State.pc = some arg) ∧
    (s.ac = 200 →
      (JN.run s arg).map State.pc = some arg ∧
      ¬(JZ.run s arg).map State.pc = some arg) := by
  have h2 : s.pc + 2 ≠ arg := fun hx => h hx.symm
  by_cases h0 : s.ac = 0
  · simp [JZ, JNZ, JN, h0, h2]
  · by_cases h64 : 64 ≤ s.ac
    · simp [JZ, JNZ, JN, h0, h64, h2]
    · simp [JZ, JNZ, JN, h0, h64, h2]
      omega

/-- C7 amended witness: at accumulator 200 and jump target 7. -/
theorem C7_branch_exclusion_witness :
    (7 ≠ st200.pc + 2) ∧
    ((¬((JZ.run st200 7).map State.pc = some 7 ∧
        (JNZ.run st200 7).map State.pc = some 7)) ∧
     (¬((JZ.run st200 7).map State.pc = some 7 ∧
        (JN.run st200 7).map State.pc = some 7)) ∧
     (64 ≤ st200.ac →
       (JNZ.run st200 7).map State.pc = some 7 ∧
       (JN.run st200 7).map State.pc = some 7) ∧
     (st200.ac = 0 →
       (JZ.run st200 7).map State.pc = some 7 ∧
       ¬(JNZ.run st200 7).map State.pc = some 7) ∧
     (st200.ac = 200 →
       (JN.run st200 7).map State.pc = some 7 ∧
       ¬(JZ.run st200 7).map State.pc = some 7)) :=
  ⟨by decide, C7_branch_exclusion st200 7 (by decide)⟩

/-- C8: whatever opcode byte is decoded, a successful transition never
changes the input ports: the inputs field of every successor state equals
the inputs field of the predecessor, for all sixteen instructions. -/
theorem C8_inputs_frame (code : Nat) (op : Operator) (s : State) (arg : Nat)
    (s2 : State) (hdec : get_operator code = some op)
    (hrun : op.run s arg = some s2) :
    s2.inputs = s.inputs := by
  obtain ⟨e, he, hf⟩ := List.exists_of_findSome?_eq_some hdec
  by_cases hc : e.1 ≤ code ∧ code ≤ e.2.1
  · rw [if_pos hc] at hf
    injection hf with hop
    subst hop
    simp only [opTable, List.mem_cons, List.not_mem_nil, or_false] at he
    rcases he with rfl | rfl | rfl | rfl | rfl | rfl | rfl | rfl |
      rfl | rfl | rfl | rfl | rfl | rfl | rfl | rfl <;>
    simp only [NOP, STA, LDA, ADD, OR, AND, NOT, SUB, JMP, JN, JZ, JNZ,
      IN, OUT, LDI, HLT, Option.map_eq_some', Option.some.injEq,
      Option.ite_none_right_eq_some] at hrun <;>
    first
      | (subst hrun; rfl)
      | (obtain ⟨v, hv, hv2⟩ := hrun; subst hv2; rfl)
      | (obtain ⟨hv, hv2⟩ := hrun; subst hv2; rfl)
  · rw [if_neg hc] at hf
    exact Option.noConfusion hf

/-- C8 witness: decoding byte 0 gives NOP, whose transition on a concrete
state keeps the input ports. -/
theorem C8_inputs_frame_witness :
    (get_operator 0 = some NOP ∧
     NOP.run st100 0 = some { st100 with pc := st100.pc + 1 }) ∧
    ({ st100 with pc := st100.pc + 1 } : State).inputs = st100.inputs :=
  ⟨⟨rfl, rfl⟩, C8_inputs_frame 0 NOP st100 0 _ rfl rfl⟩

end Neander
